import Mathlib

/-!
Formal development of the quicklens gravitational-lensing core: coordinate
relocation, exponential fall-off weighting, the convolution kernel, finite
differences, the lens and source data model, the per-pixel renderer and the
caustic inversion pass.  C++ `double` values are modelled as real numbers,
C++ `int` values as integers, and byte (`uchar`) values as natural numbers.
-/

/-- C++ `static_cast<int>` applied to a `double`: truncation toward zero. -/
noncomputable def cppIntCast (x : ℝ) : ℤ :=
  if 0 ≤ x then ⌊x⌋ else -⌊-x⌋

/-- C++ `int / int`: division truncating toward zero. -/
def cppDiv (a b : ℤ) : ℤ := Int.tdiv a b

lemma cppIntCast_intCast (n : ℤ) : cppIntCast (n : ℝ) = n := by
  unfold cppIntCast
  split_ifs with h
  · exact Int.floor_intCast n
  · rw [show (-(n : ℝ)) = ((-n : ℤ) : ℝ) by push_cast; ring, Int.floor_intCast]
    ring

lemma cppIntCast_of_nonneg {x : ℝ} (h : 0 ≤ x) : cppIntCast x = ⌊x⌋ := by
  unfold cppIntCast
  exact if_pos h

lemma cppIntCast_intCast_add_half (n : ℤ) :
    cppIntCast ((n : ℝ) + 0.5) = if 0 ≤ n then n else n + 1 := by
  unfold cppIntCast
  by_cases hn : 0 ≤ n
  · have h0 : (0 : ℝ) ≤ (n : ℝ) := by exact_mod_cast hn
    rw [if_pos hn, if_pos (by linarith : (0:ℝ) ≤ (n : ℝ) + 0.5)]
    rw [Int.floor_eq_iff]
    constructor
    · linarith
    · linarith
  · have hn1 : n ≤ -1 := by omega
    have hcast : (n : ℝ) ≤ -1 := by exact_mod_cast hn1
    rw [if_neg hn, if_neg (by intro hc; linarith : ¬ (0:ℝ) ≤ (n : ℝ) + 0.5)]
    have : ⌊-((n : ℝ) + 0.5)⌋ = -n - 1 := by
      rw [Int.floor_eq_iff]
      constructor
      · push_cast
        linarith
      · push_cast
        linarith
    rw [this]
    ring

/-- `relocate` (double overload, `math.cpp`): replace a floating coordinate by
the nearest integer within `[0, interval_len - 1]`. -/
noncomputable def relocate (phys_coord : ℝ) (interval_len : ℤ) : ℤ :=
  if cppIntCast (phys_coord + 0.5) < 0 then 0
  else if interval_len ≤ cppIntCast (phys_coord + 0.5) then interval_len - 1
  else cppIntCast (phys_coord + 0.5)

/-- `relocate` (int overload, `math.cpp`): clamp an integer coordinate into
`[0, interval_len - 1]`. -/
def relocateInt (rounded_coord : ℤ) (interval_len : ℤ) : ℤ :=
  if rounded_coord < 0 then 0
  else if interval_len ≤ rounded_coord then interval_len - 1
  else rounded_coord

/-- `exp_fall_off` (`math.cpp`): 1D exponential fall-off weight outside the
interval `[0, len)`. -/
noncomputable def exp_fall_off (rel_px len : ℤ) (half lm1 : ℝ) : ℝ :=
  if rel_px < 0 then Real.exp ((rel_px : ℝ) / half)
  else if len ≤ rel_px then Real.exp ((lm1 - (rel_px : ℝ)) / half)
  else 1

/-- `relocate_and_compute_exp_falloff` (`math.cpp`): fall-off weight paired
with the relocated coordinate (the C++ `safe_rel_x` out-parameter). -/
noncomputable def relocate_and_compute_exp_falloff (rel_px len : ℤ) (half lm1 : ℝ) :
    ℝ × ℤ :=
  if rel_px < 0 then (Real.exp ((rel_px : ℝ) / half), 0)
  else if len ≤ rel_px then (Real.exp ((lm1 - (rel_px : ℝ)) / half), cppIntCast lm1)
  else (1, rel_px)

/-- The fall-off weight produced by `relocate_and_compute_exp_falloff` when
called the way the renderer calls it: `half = len/2`, `lm1 = len - 1`. -/
noncomputable def fallOffWeight (len r : ℤ) : ℝ :=
  (relocate_and_compute_exp_falloff r len ((len : ℝ) / 2) ((len : ℝ) - 1)).1

/-- The signed distance past the nearest boundary of `[0, len)`: the boundary
`0` below, the last in-range pixel `len - 1` above. -/
noncomputable def fallOffExcess (len r : ℤ) : ℝ :=
  if r < 0 then (r : ℝ) else ((len : ℝ) - 1) - (r : ℝ)

/-- Full statement of claim C2 for a given interval length. -/
noncomputable def C2Prop (len : ℤ) : Prop :=
  (∀ r : ℤ, 0 ≤ r → r < len →
      relocate_and_compute_exp_falloff r len ((len : ℝ) / 2) ((len : ℝ) - 1) = (1, r)) ∧
  (∀ r : ℤ, r < 0 ∨ len ≤ r →
      0 < fallOffWeight len r ∧ fallOffWeight len r < 1 ∧
      fallOffWeight len r = Real.exp (fallOffExcess len r / ((len : ℝ) / 2))) ∧
  (∀ a b : ℤ, a < b → b < 0 → fallOffWeight len a < fallOffWeight len b) ∧
  (∀ a b : ℤ, len ≤ a → a < b → fallOffWeight len b < fallOffWeight len a)

lemma fallOffWeight_neg {len r : ℤ} (h : r < 0) :
    fallOffWeight len r = Real.exp ((r : ℝ) / ((len : ℝ) / 2)) := by
  unfold fallOffWeight relocate_and_compute_exp_falloff
  rw [if_pos h]

lemma fallOffWeight_ge {len r : ℤ} (h0 : ¬ r < 0) (h1 : len ≤ r) :
    fallOffWeight len r = Real.exp ((((len : ℝ) - 1) - (r : ℝ)) / ((len : ℝ) / 2)) := by
  unfold fallOffWeight relocate_and_compute_exp_falloff
  rw [if_neg h0, if_pos h1]

/-- Claim C2: called with `half = len/2` and `lm1 = len-1`,
`relocate_and_compute_exp_falloff` returns weight `1` and the unmodified
coordinate on `[0, len)`; outside that interval the weight is in `(0,1)`,
equals `exp(excess/half)` for the signed distance `excess` past the nearest
boundary, and strictly decreases as the coordinate moves further outside in
either direction. -/
theorem c2_falloff (len : ℤ) (hlen : 1 ≤ len) : C2Prop len := by
  have hhalf : (0 : ℝ) < (len : ℝ) / 2 := by
    have : (1 : ℝ) ≤ (len : ℝ) := by exact_mod_cast hlen
    linarith
  refine ⟨?_, ?_, ?_, ?_⟩
  · intro r h0 h1
    unfold relocate_and_compute_exp_falloff
    rw [if_neg (by omega), if_neg (by omega)]
  · intro r hr
    rcases hr with hr | hr
    · rw [fallOffWeight_neg hr]
      have hx : ((r : ℝ) / ((len : ℝ) / 2)) < 0 := by
        apply div_neg_of_neg_of_pos _ hhalf
        exact_mod_cast hr
      refine ⟨Real.exp_pos _, Real.exp_lt_one_iff.mpr hx, ?_⟩
      unfold fallOffExcess
      rw [if_pos hr]
    · have h0 : ¬ r < 0 := by omega
      rw [fallOffWeight_ge h0 hr]
      have hrr : (len : ℝ) ≤ (r : ℝ) := by exact_mod_cast hr
      have hx : ((((len : ℝ) - 1) - (r : ℝ)) / ((len : ℝ) / 2)) < 0 := by
        apply div_neg_of_neg_of_pos _ hhalf
        linarith
      refine ⟨Real.exp_pos _, Real.exp_lt_one_iff.mpr hx, ?_⟩
      unfold fallOffExcess
      rw [if_neg h0]
  · intro a b hab hb
    rw [fallOffWeight_neg (by omega), fallOffWeight_neg hb]
    apply Real.exp_lt_exp.mpr
    apply div_lt_div_of_pos_right _ hhalf
    exact_mod_cast hab
  · intro a b ha hab
    rw [fallOffWeight_ge (by omega) ha, fallOffWeight_ge (by omega) (by omega)]
    apply Real.exp_lt_exp.mpr
    apply div_lt_div_of_pos_right _ hhalf
    have : (a : ℝ) < (b : ℝ) := by exact_mod_cast hab
    linarith

/-- Witness for claim C2 at `len = 4`. -/
theorem c2_falloff_witness : (1 : ℤ) ≤ 4 ∧ C2Prop 4 :=
  ⟨by norm_num, c2_falloff 4 (by norm_num)⟩

/-- Full statement of claim C9 for a given interval length. -/
noncomputable def C9Prop (L : ℤ) : Prop :=
  (∀ x : ℝ, 0 ≤ relocate x L ∧ relocate x L ≤ L - 1 ∧
      relocateInt (relocate x L) L = relocate x L) ∧
  (∀ n : ℤ, 0 ≤ relocateInt n L ∧ relocateInt n L ≤ L - 1 ∧
      relocateInt (relocateInt n L) L = relocateInt n L)

/-- Claim C9: for every interval length `L ≥ 1`, both overloads of `relocate`
land in `[0, L-1]` and are idempotent (re-relocating an already relocated
coordinate, which is an `int`, goes through the `int` overload). -/
theorem c9_relocate (L : ℤ) (hL : 1 ≤ L) : C9Prop L := by
  constructor
  · intro x
    unfold relocate relocateInt
    split_ifs <;> omega
  · intro n
    unfold relocateInt
    split_ifs <;> omega

/-- Witness for claim C9 at `L = 3`. -/
theorem c9_relocate_witness : (1 : ℤ) ≤ 3 ∧ C9Prop 3 :=
  ⟨by norm_num, c9_relocate 3 (by norm_num)⟩

/-- The lens data model (`lensT`, `lens.h`): screen geometry, deflection
grids `alpha1`/`alpha2` (indexed row, column like `Mat::at`), the byte
convergence copy, the critical-curve and caustic masks, and the user weight.
Grids are modelled as total functions; the in-range indices are the ones the
C++ code may access. -/
structure lensT where
  origin0 : ℤ
  origin1 : ℤ
  end_points0 : ℤ
  end_points1 : ℤ
  w : ℤ
  h : ℤ
  alpha1 : ℤ → ℤ → ℝ
  alpha2 : ℤ → ℤ → ℝ
  kappa8u : ℤ → ℤ → ℕ
  cc_map : ℤ → ℤ → ℕ
  caustic_map : ℤ → ℤ → ℕ
  weight : ℝ

/-- `lensT::move` (`lens.cpp`): update origin and end points from the new
center according to the current width and height. -/
def lensT.move (l : lensT) (x_pos y_pos : ℤ) : lensT :=
  { l with
    origin0 := x_pos - cppDiv l.w 2
    origin1 := y_pos - cppDiv l.h 2
    end_points0 := x_pos - cppDiv l.w 2 + l.w
    end_points1 := y_pos - cppDiv l.h 2 + l.h }

/-- `lensT::contains` (`lens.cpp`): strict interior test against origin and
end points. -/
def lensT.contains (l : lensT) (x y : ℤ) : Prop :=
  l.origin0 < x ∧ x < l.end_points0 ∧ l.origin1 < y ∧ y < l.end_points1

instance (l : lensT) (x y : ℤ) : Decidable (l.contains x y) := by
  unfold lensT.contains
  infer_instance

/-- `lensT::raytrace_pixel` (`lens.cpp`): solve the lens equation,
`y = x - alpha(rel2_safe, rel1_safe) * scale_fac * weight` componentwise. -/
noncomputable def lensT.raytrace_pixel (l : lensT) (x1 x2 rel1_safe rel2_safe : ℤ)
    (scale_fac : ℝ) : ℝ × ℝ :=
  ((x1 : ℝ) - l.alpha1 rel2_safe rel1_safe * scale_fac * l.weight,
   (x2 : ℝ) - l.alpha2 rel2_safe rel1_safe * scale_fac * l.weight)

/-- Claim C1: for in-range deflection indices, `raytrace_pixel` returns
`(x1 - weight*scale*alpha1[relY][relX], x2 - weight*scale*alpha2[relY][relX])`,
and doubling the weight doubles the displacement of the output from the input
pixel. -/
theorem c1_raytrace (l : lensT) (x1 x2 relX relY : ℤ) (s : ℝ)
    (_h1 : 0 ≤ relX) (_h2 : relX < l.w) (_h3 : 0 ≤ relY) (_h4 : relY < l.h) :
    l.raytrace_pixel x1 x2 relX relY s =
      ((x1 : ℝ) - l.weight * s * l.alpha1 relY relX,
       (x2 : ℝ) - l.weight * s * l.alpha2 relY relX) ∧
    (x1 : ℝ) - ({ l with weight := 2 * l.weight }.raytrace_pixel x1 x2 relX relY s).1
      = 2 * ((x1 : ℝ) - (l.raytrace_pixel x1 x2 relX relY s).1) ∧
    (x2 : ℝ) - ({ l with weight := 2 * l.weight }.raytrace_pixel x1 x2 relX relY s).2
      = 2 * ((x2 : ℝ) - (l.raytrace_pixel x1 x2 relX relY s).2) := by
  unfold lensT.raytrace_pixel
  refine ⟨?_, by ring, by ring⟩
  simp only [Prod.mk.injEq]
  constructor <;> ring

/-- A concrete lens used to witness claim C1. -/
noncomputable def lensC1 : lensT :=
  { origin0 := 0, origin1 := 0, end_points0 := 2, end_points1 := 2,
    w := 2, h := 2,
    alpha1 := fun _ _ => 3, alpha2 := fun _ _ => 4,
    kappa8u := fun _ _ => 0, cc_map := fun _ _ => 0, caustic_map := fun _ _ => 0,
    weight := 1 }

/-- Witness for claim C1 at a concrete lens and pixel. -/
theorem c1_raytrace_witness :
    (0 : ℤ) ≤ 0 ∧ (0 : ℤ) < lensC1.w ∧ (0 : ℤ) < lensC1.h ∧
    (lensC1.raytrace_pixel 5 7 0 0 1 =
      ((5 : ℝ) - lensC1.weight * 1 * lensC1.alpha1 0 0,
       (7 : ℝ) - lensC1.weight * 1 * lensC1.alpha2 0 0) ∧
    (5 : ℝ) - ({ lensC1 with weight := 2 * lensC1.weight }.raytrace_pixel 5 7 0 0 1).1
      = 2 * ((5 : ℝ) - (lensC1.raytrace_pixel 5 7 0 0 1).1) ∧
    (7 : ℝ) - ({ lensC1 with weight := 2 * lensC1.weight }.raytrace_pixel 5 7 0 0 1).2
      = 2 * ((7 : ℝ) - (lensC1.raytrace_pixel 5 7 0 0 1).2)) :=
  ⟨le_refl 0, by norm_num [lensC1], by norm_num [lensC1],
   c1_raytrace lensC1 5 7 0 0 1 (le_refl 0) (by norm_num [lensC1])
     (le_refl 0) (by norm_num [lensC1])⟩

/-- The source data model (`sourceT`, `lens.h`): geometry of the sampling
window, the dimensions of the immutable original image, and the three
single-channel byte grids (indexed row, column like `Mat::at`). -/
structure sourceT where
  origin0 : ℤ
  origin1 : ℤ
  pos0 : ℤ
  pos1 : ℤ
  end_points0 : ℤ
  end_points1 : ℤ
  w : ℤ
  h : ℤ
  imageW : ℤ
  imageH : ℤ
  channels : Fin 3 → ℤ → ℤ → ℕ

/-- `sourceT::move` (`lens.cpp`): reposition the source center and recompute
origin and end points from the current width and height. -/
def sourceT.move (s : sourceT) (x_pos y_pos : ℤ) : sourceT :=
  { s with
    pos0 := x_pos
    pos1 := y_pos
    origin0 := x_pos - cppDiv s.w 2
    origin1 := y_pos - cppDiv s.h 2
    end_points0 := x_pos - cppDiv s.w 2 + s.w
    end_points1 := y_pos - cppDiv s.h 2 + s.h }

/-- `sourceT::resize_area` (`lens.cpp`): recompute the width and height from
the immutable original image and the factor, swap in the externally rescaled
channels when both are positive (`cv::resize` is an external collaborator,
so its output is a parameter), and re-`move` to the previous center. -/
noncomputable def sourceT.resize_area (s : sourceT) (factor : ℝ)
    (rescaled : Fin 3 → ℤ → ℤ → ℕ) : sourceT :=
  let orig_xpos := s.origin0 + cppDiv s.w 2
  let orig_ypos := s.origin1 + cppDiv s.h 2
  let w2 := cppIntCast ((s.imageW : ℝ) * factor)
  let h2 := cppIntCast ((s.imageH : ℝ) * factor)
  ({ s with
     w := w2
     h := h2
     channels := if 0 < w2 ∧ 0 < h2 then rescaled else s.channels }).move orig_xpos orig_ypos

/-- Full statement of claim C10. -/
noncomputable def C10Prop : Prop :=
  (∀ (l : lensT) (x y : ℤ),
      (l.move x y).origin0 = x - cppDiv l.w 2 ∧
      (l.move x y).origin1 = y - cppDiv l.h 2 ∧
      (l.move x y).end_points0 = (l.move x y).origin0 + (l.move x y).w ∧
      (l.move x y).end_points1 = (l.move x y).origin1 + (l.move x y).h ∧
      (l.move x y).w = l.w ∧ (l.move x y).h = l.h) ∧
  (∀ (s : sourceT) (x y : ℤ),
      (s.move x y).origin0 = x - cppDiv s.w 2 ∧
      (s.move x y).origin1 = y - cppDiv s.h 2 ∧
      (s.move x y).end_points0 = (s.move x y).origin0 + (s.move x y).w ∧
      (s.move x y).end_points1 = (s.move x y).origin1 + (s.move x y).h ∧
      (s.move x y).pos0 = x ∧ (s.move x y).pos1 = y ∧
      (s.move x y).w = s.w ∧ (s.move x y).h = s.h) ∧
  (∀ (s : sourceT) (factor : ℝ) (rescaled : Fin 3 → ℤ → ℤ → ℕ),
      (s.resize_area factor rescaled).w = cppIntCast ((s.imageW : ℝ) * factor) ∧
      (s.resize_area factor rescaled).h = cppIntCast ((s.imageH : ℝ) * factor) ∧
      (s.resize_area factor rescaled).origin0 =
        (s.origin0 + cppDiv s.w 2) - cppDiv (s.resize_area factor rescaled).w 2 ∧
      (s.resize_area factor rescaled).origin1 =
        (s.origin1 + cppDiv s.h 2) - cppDiv (s.resize_area factor rescaled).h 2 ∧
      (s.resize_area factor rescaled).end_points0 =
        (s.resize_area factor rescaled).origin0 + (s.resize_area factor rescaled).w ∧
      (s.resize_area factor rescaled).end_points1 =
        (s.resize_area factor rescaled).origin1 + (s.resize_area factor rescaled).h ∧
      (s.origin0 = s.pos0 - cppDiv s.w 2 → s.origin1 = s.pos1 - cppDiv s.h 2 →
        (s.resize_area factor rescaled).pos0 = s.pos0 ∧
        (s.resize_area factor rescaled).pos1 = s.pos1))

/-- Claim C10: after `lensT::move`, `sourceT::move` and
`sourceT::resize_area`, end points equal origin plus the current size, the
origin equals the requested center minus half the size in truncating integer
division, and `resize_area` re-establishes this for the new size while
keeping the previous center. -/
theorem c10_geometry : C10Prop := by
  refine ⟨?_, ?_, ?_⟩
  · intro l x y
    simp [lensT.move]
  · intro s x y
    simp [sourceT.move]
  · intro s factor rescaled
    refine ⟨?_, ?_, ?_, ?_, ?_, ?_, ?_⟩ <;>
      simp [sourceT.resize_area, sourceT.move]
    intro h0 h1
    constructor
    · rw [h0]
      ring
    · rw [h1]
      ring

/-- A concrete source used to witness claim C10: a 4x4 window centered at
`(10, 10)`, so the `origin = pos - size/2` invariant holds. -/
def sourceC10 : sourceT :=
  { origin0 := 8, origin1 := 8, pos0 := 10, pos1 := 10,
    end_points0 := 12, end_points1 := 12, w := 4, h := 4,
    imageW := 4, imageH := 4, channels := fun _ _ _ => 0 }

/-- Witness for claim C10: the `resize_area` clause applied to a concrete
source whose invariant holds, with its hypotheses discharged. -/
theorem c10_geometry_witness :
    ((sourceC10.resize_area 2 (fun _ _ _ => 0)).pos0 = sourceC10.pos0 ∧
     (sourceC10.resize_area 2 (fun _ _ _ => 0)).pos1 = sourceC10.pos1) :=
  (c10_geometry.2.2 sourceC10 2 (fun _ _ _ => 0)).2.2.2.2.2.2
    (by simp only [sourceC10, cppDiv]; decide) (by simp only [sourceC10, cppDiv]; decide)

lemma floor_intCast_add_half (n : ℤ) : ⌊(n : ℝ) + 1 / 2⌋ = n := by
  rw [Int.floor_eq_iff]
  constructor
  · linarith
  · linarith

lemma relocate_intCast {n len : ℤ} (h0 : 0 ≤ n) (h1 : n ≤ len - 1) :
    relocate (n : ℝ) len = n := by
  unfold relocate
  rw [cppIntCast_intCast_add_half, if_pos h0]
  split_ifs <;> omega

/-- C++ assignment of a `double` to a `uchar` slot of a `cv::Vec3b`:
conversion to an integer by truncation toward zero (the interpolated values
are always in byte range). -/
noncomputable def byteOfReal (x : ℝ) : ℕ := (cppIntCast x).toNat

lemma byteOfReal_natCast (n : ℕ) : byteOfReal (n : ℝ) = n := by
  unfold byteOfReal
  rw [show ((n : ℝ)) = ((n : ℤ) : ℝ) by push_cast; ring, cppIntCast_intCast]
  simp

lemma byteOfReal_half_sum (a b : ℕ) : byteOfReal (((a : ℝ) + b) / 2) = (a + b) / 2 := by
  unfold byteOfReal
  rw [cppIntCast_of_nonneg (by positivity)]
  have h : ((a : ℝ) + b) / 2 = (((((a + b : ℕ) : ℚ)) / ((2 : ℕ) : ℚ) : ℚ) : ℝ) := by
    push_cast
    ring
  rw [h, Rat.floor_cast, Rat.floor_natCast_div_natCast]
  omega

/-- `sourceT::contains` (`lens.cpp`): the x coordinate is truncated toward
zero, the y coordinate is rounded via `+0.5` then truncated; both are then
tested strictly against origin and end points. -/
noncomputable def sourceT.contains (s : sourceT) (x_ y_ : ℝ) : Prop :=
  s.origin0 < cppIntCast x_ ∧ cppIntCast x_ < s.end_points0 ∧
  s.origin1 < cppIntCast (y_ + 0.5) ∧ cppIntCast (y_ + 0.5) < s.end_points1

noncomputable instance (s : sourceT) (x y : ℝ) : Decidable (s.contains x y) := by
  unfold sourceT.contains
  infer_instance

/-- `sourceT::get_linear_interpolated_pixel` (`lens.cpp`): black outside
`contains`, otherwise bilinear interpolation among the four neighbouring
pixels, each index clamped by `relocate`, converted to bytes per channel. -/
noncomputable def sourceT.get_linear_interpolated_pixel (s : sourceT) (beta1 beta2 : ℝ) :
    ℕ × ℕ × ℕ :=
  if ¬ s.contains beta1 beta2 then (0, 0, 0)
  else
    let rel_beta1 := beta1 - (s.origin0 : ℝ)
    let rel_beta2 := beta2 - (s.origin1 : ℝ)
    let fl1 : ℝ := (⌊rel_beta1⌋ : ℝ)
    let fl2 : ℝ := (⌊rel_beta2⌋ : ℝ)
    let low1 := relocate fl1 s.w
    let low2 := relocate fl2 s.h
    let up1 := relocate (fl1 + 1) s.w
    let up2 := relocate (fl2 + 1) s.h
    let x := rel_beta1 - fl1
    let y := rel_beta2 - fl2
    let xy := x * y
    let c00 := 1 - x - y + xy
    let c01 := x - xy
    let c10 := y - xy
    let c11 := xy
    (byteOfReal ((s.channels 0 low2 low1 : ℝ) * c00 + (s.channels 0 low2 up1 : ℝ) * c01
       + (s.channels 0 up2 low1 : ℝ) * c10 + (s.channels 0 up2 up1 : ℝ) * c11),
     byteOfReal ((s.channels 1 low2 low1 : ℝ) * c00 + (s.channels 1 low2 up1 : ℝ) * c01
       + (s.channels 1 up2 low1 : ℝ) * c10 + (s.channels 1 up2 up1 : ℝ) * c11),
     byteOfReal ((s.channels 2 low2 low1 : ℝ) * c00 + (s.channels 2 low2 up1 : ℝ) * c01
       + (s.channels 2 up2 low1 : ℝ) * c10 + (s.channels 2 up2 up1 : ℝ) * c11))

/-- The bilinear interpolation formula exactly as the specification states
it: `I00(1-x)(1-y) + I01 x(1-y) + I10 (1-x)y + I11 xy` with fractional
weights `x`, `y` and `relocate`-clamped neighbour indices. -/
noncomputable def bilinearSample (s : sourceT) (c : Fin 3) (beta1 beta2 : ℝ) : ℝ :=
  (s.channels c (relocate (⌊beta2 - (s.origin1 : ℝ)⌋ : ℝ) s.h)
      (relocate (⌊beta1 - (s.origin0 : ℝ)⌋ : ℝ) s.w) : ℝ)
    * (1 - (beta1 - (s.origin0 : ℝ) - ⌊beta1 - (s.origin0 : ℝ)⌋))
    * (1 - (beta2 - (s.origin1 : ℝ) - ⌊beta2 - (s.origin1 : ℝ)⌋))
  + (s.channels c (relocate (⌊beta2 - (s.origin1 : ℝ)⌋ : ℝ) s.h)
      (relocate ((⌊beta1 - (s.origin0 : ℝ)⌋ : ℝ) + 1) s.w) : ℝ)
    * (beta1 - (s.origin0 : ℝ) - ⌊beta1 - (s.origin0 : ℝ)⌋)
    * (1 - (beta2 - (s.origin1 : ℝ) - ⌊beta2 - (s.origin1 : ℝ)⌋))
  + (s.channels c (relocate ((⌊beta2 - (s.origin1 : ℝ)⌋ : ℝ) + 1) s.h)
      (relocate (⌊beta1 - (s.origin0 : ℝ)⌋ : ℝ) s.w) : ℝ)
    * (1 - (beta1 - (s.origin0 : ℝ) - ⌊beta1 - (s.origin0 : ℝ)⌋))
    * (beta2 - (s.origin1 : ℝ) - ⌊beta2 - (s.origin1 : ℝ)⌋)
  + (s.channels c (relocate ((⌊beta2 - (s.origin1 : ℝ)⌋ : ℝ) + 1) s.h)
      (relocate ((⌊beta1 - (s.origin0 : ℝ)⌋ : ℝ) + 1) s.w) : ℝ)
    * (beta1 - (s.origin0 : ℝ) - ⌊beta1 - (s.origin0 : ℝ)⌋)
    * (beta2 - (s.origin1 : ℝ) - ⌊beta2 - (s.origin1 : ℝ)⌋)

lemma glip_inside (s : sourceT) (beta1 beta2 : ℝ) (h : s.contains beta1 beta2) :
    s.get_linear_interpolated_pixel beta1 beta2 =
      (byteOfReal (bilinearSample s 0 beta1 beta2),
       byteOfReal (bilinearSample s 1 beta1 beta2),
       byteOfReal (bilinearSample s 2 beta1 beta2)) := by
  unfold sourceT.get_linear_interpolated_pixel
  rw [if_neg (not_not_intro h)]
  simp only [Prod.mk.injEq]
  refine ⟨?_, ?_, ?_⟩ <;>
  · congr 1
    unfold bilinearSample
    ring

lemma floor_intCast_add_half05 (n : ℤ) : ⌊(n : ℝ) + 0.5⌋ = n := by
  rw [show ((0.5 : ℝ)) = 1 / 2 by norm_num]
  exact floor_intCast_add_half n

/-- Full statement of claim C3 for a given source. -/
noncomputable def C3Prop (s : sourceT) : Prop :=
  (∀ beta1 beta2 : ℝ, ¬ s.contains beta1 beta2 →
      s.get_linear_interpolated_pixel beta1 beta2 = (0, 0, 0)) ∧
  (∀ beta1 beta2 : ℝ, s.contains beta1 beta2 →
      s.get_linear_interpolated_pixel beta1 beta2 =
        (byteOfReal (bilinearSample s 0 beta1 beta2),
         byteOfReal (bilinearSample s 1 beta1 beta2),
         byteOfReal (bilinearSample s 2 beta1 beta2))) ∧
  (∀ k m : ℤ, s.contains (k : ℝ) (m : ℝ) →
      s.get_linear_interpolated_pixel (k : ℝ) (m : ℝ) =
        (s.channels 0 (m - s.origin1) (k - s.origin0),
         s.channels 1 (m - s.origin1) (k - s.origin0),
         s.channels 2 (m - s.origin1) (k - s.origin0))) ∧
  (∀ k m : ℤ, s.contains ((k : ℝ) + 0.5) (m : ℝ) → k + 1 < s.end_points0 →
      s.get_linear_interpolated_pixel ((k : ℝ) + 0.5) (m : ℝ) =
        ((s.channels 0 (m - s.origin1) (k - s.origin0)
            + s.channels 0 (m - s.origin1) (k - s.origin0 + 1)) / 2,
         (s.channels 1 (m - s.origin1) (k - s.origin0)
            + s.channels 1 (m - s.origin1) (k - s.origin0 + 1)) / 2,
         (s.channels 2 (m - s.origin1) (k - s.origin0)
            + s.channels 2 (m - s.origin1) (k - s.origin0 + 1)) / 2))

/-- Claim C3: outside `contains` the interpolated pixel is black with no
error signal; inside it is the bilinear interpolation of the four
neighbouring pixels, so sampling at an integer pixel center returns that
pixel exactly and sampling at the midpoint of two horizontally adjacent
pixels returns the floor of their average per channel. -/
theorem c3_interpolation (s : sourceT) (hw : s.end_points0 = s.origin0 + s.w)
    (hh : s.end_points1 = s.origin1 + s.h) : C3Prop s := by
  refine ⟨?_, ?_, ?_, ?_⟩
  · intro beta1 beta2 h
    unfold sourceT.get_linear_interpolated_pixel
    rw [if_pos h]
  · intro beta1 beta2 h
    exact glip_inside s beta1 beta2 h
  · intro k m hc
    have hc2 := hc
    unfold sourceT.contains at hc2
    obtain ⟨hx1, hx2, hy1, hy2⟩ := hc2
    rw [cppIntCast_intCast] at hx1 hx2
    rw [cppIntCast_intCast_add_half] at hy1 hy2
    have hr1a : 0 ≤ k - s.origin0 := by omega
    have hr1b : k - s.origin0 ≤ s.w - 1 := by rw [hw] at hx2; omega
    have hr2a : 0 ≤ m - s.origin1 := by
      by_cases hm : 0 ≤ m
      · rw [if_pos hm] at hy1; omega
      · rw [if_neg hm] at hy1; omega
    have hr2b : m - s.origin1 ≤ s.h - 1 := by
      rw [hh] at hy2
      by_cases hm : 0 ≤ m
      · rw [if_pos hm] at hy2; omega
      · rw [if_neg hm] at hy2; omega
    rw [glip_inside s _ _ hc]
    have e1 : (k : ℝ) - (s.origin0 : ℝ) = ((k - s.origin0 : ℤ) : ℝ) := by push_cast; ring
    have e2 : (m : ℝ) - (s.origin1 : ℝ) = ((m - s.origin1 : ℤ) : ℝ) := by push_cast; ring
    have hbs : ∀ c : Fin 3, bilinearSample s c (k : ℝ) (m : ℝ) =
        ((s.channels c (m - s.origin1) (k - s.origin0) : ℕ) : ℝ) := by
      intro c
      unfold bilinearSample
      rw [e1, e2, Int.floor_intCast, Int.floor_intCast,
        relocate_intCast hr1a hr1b, relocate_intCast hr2a hr2b]
      ring
    rw [hbs 0, hbs 1, hbs 2, byteOfReal_natCast, byteOfReal_natCast, byteOfReal_natCast]
  · intro k m hc hk
    have hc2 := hc
    unfold sourceT.contains at hc2
    obtain ⟨hx1, hx2, hy1, hy2⟩ := hc2
    rw [cppIntCast_intCast_add_half] at hx1 hx2 hy1 hy2
    have hr1a : 0 ≤ k - s.origin0 := by
      by_cases hm : 0 ≤ k
      · rw [if_pos hm] at hx1; omega
      · rw [if_neg hm] at hx1; omega
    have hr1b : k - s.origin0 + 1 ≤ s.w - 1 := by rw [hw] at hk; omega
    have hr2a : 0 ≤ m - s.origin1 := by
      by_cases hm : 0 ≤ m
      · rw [if_pos hm] at hy1; omega
      · rw [if_neg hm] at hy1; omega
    have hr2b : m - s.origin1 ≤ s.h - 1 := by
      rw [hh] at hy2
      by_cases hm : 0 ≤ m
      · rw [if_pos hm] at hy2; omega
      · rw [if_neg hm] at hy2; omega
    rw [glip_inside s _ _ hc]
    have e1 : ((k : ℝ) + 0.5) - (s.origin0 : ℝ) = ((k - s.origin0 : ℤ) : ℝ) + 0.5 := by
      push_cast
      ring
    have e2 : (m : ℝ) - (s.origin1 : ℝ) = ((m - s.origin1 : ℤ) : ℝ) := by push_cast; ring
    have e3 : ((k - s.origin0 : ℤ) : ℝ) + 1 = ((k - s.origin0 + 1 : ℤ) : ℝ) := by
      push_cast
      ring
    have hbs : ∀ c : Fin 3, bilinearSample s c ((k : ℝ) + 0.5) (m : ℝ) =
        ((s.channels c (m - s.origin1) (k - s.origin0) : ℕ) : ℝ)
          * (1 - 0.5) * 1
        + ((s.channels c (m - s.origin1) (k - s.origin0 + 1) : ℕ) : ℝ) * 0.5 * 1 := by
      intro c
      unfold bilinearSample
      rw [e1, e2, floor_intCast_add_half05, Int.floor_intCast,
        relocate_intCast hr1a (by omega), relocate_intCast hr2a hr2b, e3,
        relocate_intCast (by omega) hr1b]
      ring
    have hfin : ∀ c : Fin 3,
        byteOfReal (bilinearSample s c ((k : ℝ) + 0.5) (m : ℝ)) =
          (s.channels c (m - s.origin1) (k - s.origin0)
            + s.channels c (m - s.origin1) (k - s.origin0 + 1)) / 2 := by
      intro c
      rw [hbs c, show ((s.channels c (m - s.origin1) (k - s.origin0) : ℕ) : ℝ)
            * (1 - 0.5) * 1
          + ((s.channels c (m - s.origin1) (k - s.origin0 + 1) : ℕ) : ℝ) * 0.5 * 1
        = (((s.channels c (m - s.origin1) (k - s.origin0) : ℕ) : ℝ)
            + ((s.channels c (m - s.origin1) (k - s.origin0 + 1) : ℕ) : ℝ)) / 2 by
          norm_num; ring]
      exact byteOfReal_half_sum _ _
    rw [hfin 0, hfin 1, hfin 2]

/-- A concrete source used to witness claim C3: a 4x4 window at origin
`(0,0)` whose channel values vary with position. -/
def sourceC3 : sourceT :=
  { origin0 := 0, origin1 := 0, pos0 := 2, pos1 := 2,
    end_points0 := 4, end_points1 := 4, w := 4, h := 4,
    imageW := 4, imageH := 4,
    channels := fun c i j => c.val + 2 * i.toNat + 5 * j.toNat }

/-- Witness for claim C3 at a concrete source. -/
theorem c3_interpolation_witness :
    sourceC3.end_points0 = sourceC3.origin0 + sourceC3.w ∧
    sourceC3.end_points1 = sourceC3.origin1 + sourceC3.h ∧
    C3Prop sourceC3 :=
  ⟨rfl, rfl, c3_interpolation sourceC3 rfl rfl⟩

/-- A byte matrix (`CV_8UC1`) with its dimensions, entries indexed
(row, column) like `Mat::at`. -/
structure MatU where
  rows : ℤ
  cols : ℤ
  entry : ℤ → ℤ → ℕ

/-- All in-range entries of a byte matrix, row-major (the pixels
`cv::minMaxLoc` style scans visit). -/
def MatU.entriesList (m : MatU) : List ℕ :=
  (List.range m.rows.toNat).flatMap
    (fun i => (List.range m.cols.toNat).map (fun j => m.entry (i : ℤ) (j : ℤ)))

def listMin : List ℕ → ℕ
  | [] => 0
  | x :: xs => xs.foldl min x

def listMax (l : List ℕ) : ℕ := l.foldl max 0

/-- Minimum in-range entry (what `cv::normalize` uses as `smin`). -/
def MatU.minVal (m : MatU) : ℕ := listMin m.entriesList

/-- Maximum in-range entry (what `cv::normalize` uses as `smax`). -/
def MatU.maxVal (m : MatU) : ℕ := listMax m.entriesList

/-- `cv::normalize(kappa, kappa, 2, 0, NORM_MINMAX)` on a byte input
converted to doubles: the affine map sending the grid minimum to 0 and the
grid maximum to 2; identically zero when the grid is constant (OpenCV uses
scale 0 when `smax - smin` is negligible). -/
noncomputable def normalizeMinMax2 (m : MatU) : ℤ → ℤ → ℝ :=
  fun i j =>
    if m.minVal < m.maxVal then
      ((m.entry i j : ℝ) - (m.minVal : ℝ)) * (2 / ((m.maxVal : ℝ) - (m.minVal : ℝ)))
    else 0

/-- The byte-input branch of the `lensT` constructor (`lens.cpp`): keep the
8-bit clone (`kappa8u`) for display, and produce the double convergence grid
by `cv::normalize(..., 2, 0, NORM_MINMAX)`. -/
noncomputable def lens_kappa_from_bytes (m : MatU) : (ℤ → ℤ → ℕ) × (ℤ → ℤ → ℝ) :=
  (m.entry, normalizeMinMax2 m)

/-- The conversion claim C6 asserts, written from the claim: the fixed
normalization under which maximum byte intensity 255 maps to convergence
2.0, i.e. `v ↦ 2 v / 255`. Kept for comparison with `lens_kappa_from_bytes`. -/
noncomputable def specFixedByteToKappa (v : ℕ) : ℝ := (v : ℝ) * 2 / 255

/-- Full statement of the amended claim C6. -/
noncomputable def C6Prop (m : MatU) : Prop :=
  (lens_kappa_from_bytes m).1 = m.entry ∧
  (∀ i j : ℤ, (lens_kappa_from_bytes m).2 i j =
      ((m.entry i j : ℝ) - (m.minVal : ℝ)) * (2 / ((m.maxVal : ℝ) - (m.minVal : ℝ)))) ∧
  (∀ i j : ℤ, m.entry i j = m.maxVal → (lens_kappa_from_bytes m).2 i j = 2) ∧
  (∀ i j : ℤ, m.entry i j = m.minVal → (lens_kappa_from_bytes m).2 i j = 0) ∧
  (m.minVal = 0 → m.maxVal = 255 →
      ∀ i j : ℤ, (lens_kappa_from_bytes m).2 i j = specFixedByteToKappa (m.entry i j))

/-- Amended claim C6: the byte copy is kept, and the double convergence grid
is the min-max normalization of the input onto `[0, 2]` — the grid maximum
maps to 2.0 (and the minimum to 0); the fixed map `v ↦ 2v/255` with
`255 ↦ 2.0` is recovered exactly when the grid attains minimum 0 and
maximum 255. -/
theorem c6_byte_normalization (m : MatU) (hm : m.minVal < m.maxVal) : C6Prop m := by
  have hcast : (m.minVal : ℝ) < (m.maxVal : ℝ) := by exact_mod_cast hm
  have hne : (m.maxVal : ℝ) - (m.minVal : ℝ) ≠ 0 := by linarith
  have hbase : ∀ i j : ℤ, (lens_kappa_from_bytes m).2 i j =
      ((m.entry i j : ℝ) - (m.minVal : ℝ)) * (2 / ((m.maxVal : ℝ) - (m.minVal : ℝ))) := by
    intro i j
    simp only [lens_kappa_from_bytes, normalizeMinMax2]
    rw [if_pos hm]
  refine ⟨rfl, hbase, ?_, ?_, ?_⟩
  · intro i j he
    rw [hbase i j, he]
    field_simp
  · intro i j he
    rw [hbase i j, he]
    ring
  · intro h0 h255 i j
    rw [hbase i j, h0, h255]
    unfold specFixedByteToKappa
    push_cast
    ring

/-- A concrete 1x2 byte matrix with entries 100 and 200, used for claim C6. -/
def matC6 : MatU :=
  { rows := 1, cols := 2, entry := fun _ j => if j ≤ 0 then 100 else 200 }

/-- Counterexample for claim C6 as stated: on the input `(100, 200)` the
code maps the value 200 to exactly 2.0, while the fixed normalization
`v ↦ 2v/255` demanded by the claim maps it to 400/255; the two conversions
disagree, so the code's conversion is not that fixed normalization. -/
theorem c6_byte_normalization_counterexample :
    (lens_kappa_from_bytes matC6).2 0 1 = 2 ∧
    specFixedByteToKappa (matC6.entry 0 1) ≠ 2 ∧
    (lens_kappa_from_bytes matC6).2 0 1 ≠ specFixedByteToKappa (matC6.entry 0 1) := by
  have hmin : matC6.minVal = 100 := by decide
  have hmax : matC6.maxVal = 200 := by decide
  have he : matC6.entry 0 1 = 200 := by decide
  have hval : (lens_kappa_from_bytes matC6).2 0 1 = 2 := by
    simp only [lens_kappa_from_bytes, normalizeMinMax2]
    rw [hmin, hmax, if_pos (by norm_num), he]
    norm_num
  have hspec : specFixedByteToKappa (matC6.entry 0 1) = 400 / 255 := by
    rw [he]
    unfold specFixedByteToKappa
    norm_num
  refine ⟨hval, ?_, ?_⟩
  · rw [hspec]
    norm_num
  · rw [hval, hspec]
    norm_num

/-- Witness for the amended claim C6 on the matrix `(100, 200)`. -/
theorem c6_byte_normalization_witness : matC6.minVal < matC6.maxVal ∧ C6Prop matC6 :=
  ⟨by decide, c6_byte_normalization matC6 (by decide)⟩

/-- Pointwise write into a byte map, modelling `Mat::at<uchar>(r, c) = v`. -/
def mapWrite (f : ℤ → ℤ → ℕ) (r c : ℤ) (v : ℕ) : ℤ → ℤ → ℕ :=
  fun r2 c2 => if r2 = r ∧ c2 = c then v else f r2 c2

/-- The rounded source-plane x index computed by `invert_cc_map::operator()`
(`renderer.cpp`): raytrace pixel `(j, i)` with its own coordinates as the
relative indices and scale factor 1, add 0.5 and truncate to `int`. -/
noncomputable def causticB1 (l : lensT) (i j : ℤ) : ℤ :=
  cppIntCast ((l.raytrace_pixel j i j i 1).1 + 0.5)

/-- The rounded source-plane y index computed by `invert_cc_map::operator()`. -/
noncomputable def causticB2 (l : lensT) (i j : ℤ) : ℤ :=
  cppIntCast ((l.raytrace_pixel j i j i 1).2 + 0.5)

/-- The body of `invert_cc_map::operator()` (`renderer.cpp`) for one lens
pixel `(i, j)`: if the pixel is on a critical-curve contour and the rounded
source position is inside the caustic map, write 255 at that cell and at the
two half-dilation neighbours `(relocate(b2-1), b1)` and `(b2, relocate(b1-1))`;
otherwise leave the map untouched. The caustic map has the lens dimensions. -/
noncomputable def invert_cc_map_step (l : lensT) (i j : ℤ) (caustic : ℤ → ℤ → ℕ) :
    ℤ → ℤ → ℕ :=
  if 0 < l.cc_map i j ∧ 0 ≤ causticB1 l i j ∧ causticB1 l i j < l.w ∧
      0 ≤ causticB2 l i j ∧ causticB2 l i j < l.h then
    mapWrite
      (mapWrite (mapWrite caustic (causticB2 l i j) (causticB1 l i j) 255)
        (relocateInt (causticB2 l i j - 1) l.h) (causticB1 l i j) 255)
      (causticB2 l i j) (relocateInt (causticB1 l i j - 1) l.w) 255
  else caustic

/-- The same step as claim C5 words it, written from the claim: the
source-plane position is rounded to the nearest integer (`round`), cells
whose rounded position falls outside the caustic map bounds are dropped.
Kept for comparison with the implemented `invert_cc_map_step`. -/
noncomputable def invert_cc_map_step_spec (l : lensT) (i j : ℤ) (caustic : ℤ → ℤ → ℕ) :
    ℤ → ℤ → ℕ :=
  if 0 < l.cc_map i j ∧ 0 ≤ round (l.raytrace_pixel j i j i 1).1 ∧
      round (l.raytrace_pixel j i j i 1).1 < l.w ∧
      0 ≤ round (l.raytrace_pixel j i j i 1).2 ∧
      round (l.raytrace_pixel j i j i 1).2 < l.h then
    mapWrite
      (mapWrite
        (mapWrite caustic (round (l.raytrace_pixel j i j i 1).2)
          (round (l.raytrace_pixel j i j i 1).1) 255)
        (relocateInt (round (l.raytrace_pixel j i j i 1).2 - 1) l.h)
        (round (l.raytrace_pixel j i j i 1).1) 255)
      (round (l.raytrace_pixel j i j i 1).2)
      (relocateInt (round (l.raytrace_pixel j i j i 1).1 - 1) l.w) 255
  else caustic

/-- Full statement of the amended claim C5 for one critical-curve pixel. -/
noncomputable def C5Prop (l : lensT) (i j : ℤ) (caustic : ℤ → ℤ → ℕ) : Prop :=
  ((0 ≤ causticB1 l i j ∧ causticB1 l i j < l.w ∧
      0 ≤ causticB2 l i j ∧ causticB2 l i j < l.h) →
    ∀ r c : ℤ, invert_cc_map_step l i j caustic r c =
      if (r = causticB2 l i j ∧ c = causticB1 l i j) ∨
         (r = relocateInt (causticB2 l i j - 1) l.h ∧ c = causticB1 l i j) ∨
         (r = causticB2 l i j ∧ c = relocateInt (causticB1 l i j - 1) l.w)
      then 255 else caustic r c) ∧
  (¬ (0 ≤ causticB1 l i j ∧ causticB1 l i j < l.w ∧
      0 ≤ causticB2 l i j ∧ causticB2 l i j < l.h) →
    invert_cc_map_step l i j caustic = caustic) ∧
  (∀ x : ℝ, -(1/2) ≤ x → cppIntCast (x + 0.5) = round x)

/-- Amended claim C5: a critical-curve pixel is raytraced with scale factor 1
and no fall-off; the code rounds each source coordinate by adding 0.5 and
truncating toward zero — which agrees with round-to-nearest only for
coordinates at least -1/2 — and, when the result is inside the caustic map,
marks that cell plus the fixed two-cell half-dilation footprint; otherwise
the map is left unchanged (dropped writes, no error). -/
theorem c5_caustic_inversion (l : lensT) (i j : ℤ) (caustic : ℤ → ℤ → ℕ)
    (hcc : 0 < l.cc_map i j) : C5Prop l i j caustic := by
  refine ⟨?_, ?_, ?_⟩
  · intro hb r c
    unfold invert_cc_map_step
    rw [if_pos ⟨hcc, hb.1, hb.2.1, hb.2.2.1, hb.2.2.2⟩]
    unfold mapWrite
    split_ifs <;> tauto
  · intro hb
    unfold invert_cc_map_step
    rw [if_neg (by tauto)]
  · intro x hx
    rw [cppIntCast_of_nonneg (by rw [show ((0.5 : ℝ)) = 1/2 by norm_num]; linarith),
      round_eq, show ((0.5 : ℝ)) = 1/2 by norm_num]

/-- A concrete lens used in the claim C5 counterexample: constant deflection
0.6 in x, 0 in y, weight 1, so pixel `(0,0)` raytraces to `(-0.6, 0)`. -/
noncomputable def lensC5 : lensT :=
  { origin0 := 0, origin1 := 0, end_points0 := 2, end_points1 := 2,
    w := 2, h := 2,
    alpha1 := fun _ _ => 0.6, alpha2 := fun _ _ => 0,
    kappa8u := fun _ _ => 0, cc_map := fun _ _ => 255, caustic_map := fun _ _ => 0,
    weight := 1 }

/-- Counterexample for claim C5 as stated: at lens pixel `(0,0)` of `lensC5`
the source position is `(-0.6, 0)`, whose nearest integer x coordinate is
`-1`, outside the 2x2 caustic map — so by the claim the write is dropped —
yet the code truncates `-0.6 + 0.5` toward zero to `0` and marks cell
`(0, 0)`; the claim-worded step and the implemented step disagree. -/
theorem c5_caustic_inversion_counterexample :
    (lensC5.raytrace_pixel 0 0 0 0 1).1 = -0.6 ∧
    round (lensC5.raytrace_pixel 0 0 0 0 1).1 = -1 ∧
    causticB1 lensC5 0 0 = 0 ∧
    invert_cc_map_step lensC5 0 0 (fun _ _ => 0) 0 0 = 255 ∧
    invert_cc_map_step_spec lensC5 0 0 (fun _ _ => 0) 0 0 = 0 := by
  have hray1 : (lensC5.raytrace_pixel 0 0 0 0 1).1 = -0.6 := by
    simp only [lensT.raytrace_pixel, lensC5]
    norm_num
  have hray2 : (lensC5.raytrace_pixel 0 0 0 0 1).2 = 0 := by
    simp only [lensT.raytrace_pixel, lensC5]
    norm_num
  have hround : round (lensC5.raytrace_pixel 0 0 0 0 1).1 = -1 := by
    rw [hray1, round_eq]
    norm_num
  have hb1 : causticB1 lensC5 0 0 = 0 := by
    unfold causticB1
    rw [hray1]
    unfold cppIntCast
    rw [if_neg (by norm_num)]
    norm_num
  have hb2 : causticB2 lensC5 0 0 = 0 := by
    unfold causticB2
    rw [hray2]
    unfold cppIntCast
    rw [if_pos (by norm_num)]
    norm_num
  refine ⟨hray1, hround, hb1, ?_, ?_⟩
  · unfold invert_cc_map_step
    rw [if_pos ⟨by norm_num [lensC5], by rw [hb1], by rw [hb1]; norm_num [lensC5],
      by rw [hb2], by rw [hb2]; norm_num [lensC5]⟩]
    simp only [mapWrite]
    rw [hb1, hb2]
    norm_num [relocateInt, lensC5]
  · unfold invert_cc_map_step_spec
    rw [if_neg ?neg]
    case neg =>
      rw [hround]
      intro hcon
      exact absurd hcon.2.1 (by norm_num)

/-- A concrete lens used to witness the amended claim C5: zero deflection,
so pixel `(0,0)` maps to itself, inside the 2x2 caustic map. -/
noncomputable def lensC5W : lensT :=
  { origin0 := 0, origin1 := 0, end_points0 := 2, end_points1 := 2,
    w := 2, h := 2,
    alpha1 := fun _ _ => 0, alpha2 := fun _ _ => 0,
    kappa8u := fun _ _ => 0, cc_map := fun _ _ => 255, caustic_map := fun _ _ => 0,
    weight := 1 }

/-- Witness for the amended claim C5. -/
theorem c5_caustic_inversion_witness :
    0 < lensC5W.cc_map 0 0 ∧ C5Prop lensC5W 0 0 (fun _ _ => 0) :=
  ⟨by norm_num [lensC5W], c5_caustic_inversion lensC5W 0 0 (fun _ _ => 0) (by norm_num [lensC5W])⟩

/-- Per-channel saturating addition of an overlay sum to a BGR pixel:
`final = lensed[c] + overlay_sum`, clamped at 255 (`Parallel_renderer`). -/
def addClamp (v : ℕ × ℕ × ℕ) (s : ℕ) : ℕ × ℕ × ℕ :=
  (min (v.1 + s) 255, min (v.2.1 + s) 255, min (v.2.2 + s) 255)

/-- The screen state the renderer reads (`screenT`, `screen_io.h`): the lens
and source, the previously computed lensed image, the overlay mode and the
screen dimensions. -/
structure screenT where
  lens : lensT
  src : sourceT
  lensedRGB : ℤ → ℤ → ℕ × ℕ × ℕ
  overlay_mode : ℤ
  max_w : ℤ
  max_h : ℤ

/-- The freshly ray-traced lensed pixel computed in the
`if (recompute_lensed)` block of `Parallel_renderer::operator()`
(`renderer.cpp`): relocate both relative coordinates with exponential
fall-off, multiply the two 1D weights, solve the lens equation and sample
the source bilinearly. -/
noncomputable def raytracedSample (scr : screenT) (i j : ℤ) : ℕ × ℕ × ℕ :=
  scr.src.get_linear_interpolated_pixel
    (scr.lens.raytrace_pixel j i
      (relocate_and_compute_exp_falloff (j - scr.lens.origin0) scr.lens.w
        ((scr.lens.w : ℝ) * 0.5) ((scr.lens.w : ℝ) - 1)).2
      (relocate_and_compute_exp_falloff (i - scr.lens.origin1) scr.lens.h
        ((scr.lens.h : ℝ) * 0.5) ((scr.lens.h : ℝ) - 1)).2
      ((relocate_and_compute_exp_falloff (i - scr.lens.origin1) scr.lens.h
        ((scr.lens.h : ℝ) * 0.5) ((scr.lens.h : ℝ) - 1)).1 *
       (relocate_and_compute_exp_falloff (j - scr.lens.origin0) scr.lens.w
        ((scr.lens.w : ℝ) * 0.5) ((scr.lens.w : ℝ) - 1)).1)).1
    (scr.lens.raytrace_pixel j i
      (relocate_and_compute_exp_falloff (j - scr.lens.origin0) scr.lens.w
        ((scr.lens.w : ℝ) * 0.5) ((scr.lens.w : ℝ) - 1)).2
      (relocate_and_compute_exp_falloff (i - scr.lens.origin1) scr.lens.h
        ((scr.lens.h : ℝ) * 0.5) ((scr.lens.h : ℝ) - 1)).2
      ((relocate_and_compute_exp_falloff (i - scr.lens.origin1) scr.lens.h
        ((scr.lens.h : ℝ) * 0.5) ((scr.lens.h : ℝ) - 1)).1 *
       (relocate_and_compute_exp_falloff (j - scr.lens.origin0) scr.lens.w
        ((scr.lens.w : ℝ) * 0.5) ((scr.lens.w : ℝ) - 1)).1)).2

/-- The body of `Parallel_renderer::operator()` (`renderer.cpp`) for one
output pixel `(i, j)` (row `i`, column `j`): returns the pixel written to
the lensed buffer (unchanged when only overlays are redrawn) and the pixel
written to the final composited buffer.  Branch for branch: the white
critical-curve short-circuit in overlay-only mode, the caustic-red write
with priority after the critical curve, overlay accumulation (anti-aliased
critical-curve value plus convergence when its layer is active), ray
tracing on full redraw, and saturating overlay compositing unless the pixel
was painted caustic red. -/
noncomputable def renderPixel (scr : screenT) (recompute_lensed : Bool) (i j : ℤ) :
    (ℕ × ℕ × ℕ) × (ℕ × ℕ × ℕ) :=
  if (0 < scr.overlay_mode) ∧ scr.lens.contains j i then
    if (1 < scr.overlay_mode ∧ scr.overlay_mode ≤ 4) ∧
        0 < scr.lens.cc_map (i - scr.lens.origin1) (j - scr.lens.origin0) ∧
        scr.lens.cc_map (i - scr.lens.origin1) (j - scr.lens.origin0) = 255 ∧
        recompute_lensed = false then
      (scr.lensedRGB i j, (255, 255, 255))
    else
      if ((0 < scr.lens.caustic_map (i - scr.lens.origin1) (j - scr.lens.origin0)) ∧
          (1 < scr.overlay_mode ∧ scr.overlay_mode ≤ 4)) ∧ recompute_lensed = false then
        (scr.lensedRGB i j, (0, 0, 255))
      else
        if (0 < scr.lens.caustic_map (i - scr.lens.origin1) (j - scr.lens.origin0)) ∧
            (1 < scr.overlay_mode ∧ scr.overlay_mode ≤ 4) then
          (if recompute_lensed then raytracedSample scr i j else scr.lensedRGB i j,
           (0, 0, 255))
        else
          ((if recompute_lensed then raytracedSample scr i j else scr.lensedRGB i j),
           addClamp (if recompute_lensed then raytracedSample scr i j else scr.lensedRGB i j)
             ((if (1 < scr.overlay_mode ∧ scr.overlay_mode ≤ 4) ∧
                  0 < scr.lens.cc_map (i - scr.lens.origin1) (j - scr.lens.origin0) then
                 scr.lens.cc_map (i - scr.lens.origin1) (j - scr.lens.origin0) else 0) +
              (if scr.overlay_mode = 1 ∨ scr.overlay_mode = 4 then
                 scr.lens.kappa8u (i - scr.lens.origin1) (j - scr.lens.origin0) else 0)))
  else
    ((if recompute_lensed then raytracedSample scr i j else scr.lensedRGB i j),
     addClamp (if recompute_lensed then raytracedSample scr i j else scr.lensedRGB i j) 0)

/-- Full statement of the amended claim C4 for one pixel with overlays on,
the critical-curve layer active and the pixel inside the lens footprint. -/
noncomputable def C4Prop (scr : screenT) (recompute_lensed : Bool) (i j : ℤ) : Prop :=
  (scr.lens.cc_map (i - scr.lens.origin1) (j - scr.lens.origin0) = 255 →
    recompute_lensed = false →
    (renderPixel scr recompute_lensed i j).2 = (255, 255, 255)) ∧
  (0 < scr.lens.caustic_map (i - scr.lens.origin1) (j - scr.lens.origin0) →
    ¬ (scr.lens.cc_map (i - scr.lens.origin1) (j - scr.lens.origin0) = 255 ∧
       recompute_lensed = false) →
    (renderPixel scr recompute_lensed i j).2 = (0, 0, 255)) ∧
  (scr.lens.caustic_map (i - scr.lens.origin1) (j - scr.lens.origin0) = 0 →
    (renderPixel scr recompute_lensed i j).2 =
      addClamp (renderPixel scr recompute_lensed i j).1
        (scr.lens.cc_map (i - scr.lens.origin1) (j - scr.lens.origin0) +
         (if scr.overlay_mode = 4 then
            scr.lens.kappa8u (i - scr.lens.origin1) (j - scr.lens.origin0) else 0)))

/-- Amended claim C4: with overlays on, the critical-curve layer active and
the pixel inside the lens footprint, a caustic-positive pixel is written
pure red (BGR `(0,0,255)`) into the final buffer — except that in
overlay-only mode a pixel whose critical-curve value is 255 short-circuits
to pure white first; every caustic-free pixel's final value is the lensed
value (fresh on full redraw, previous otherwise — the first component of
`renderPixel`) plus the overlay accumulator, clamped at 255 per channel. -/
theorem c4_compositing (scr : screenT) (recompute_lensed : Bool) (i j : ℤ)
    (hm1 : 2 ≤ scr.overlay_mode) (hm2 : scr.overlay_mode ≤ 4)
    (hin : scr.lens.contains j i) : C4Prop scr recompute_lensed i j := by
  have hov : (0 : ℤ) < scr.overlay_mode := by omega
  have hsc : 1 < scr.overlay_mode ∧ scr.overlay_mode ≤ 4 := ⟨by omega, hm2⟩
  refine ⟨?_, ?_, ?_⟩
  · intro h255 hrec
    unfold renderPixel
    rw [if_pos ⟨hov, hin⟩,
      if_pos ⟨hsc, h255 ▸ (by norm_num : (0 : ℕ) < 255), h255, hrec⟩]
  · intro hca hnot
    unfold renderPixel
    rw [if_pos ⟨hov, hin⟩, if_neg (fun hcon => hnot ⟨hcon.2.2.1, hcon.2.2.2⟩)]
    cases recompute_lensed with
    | false => rw [if_pos ⟨⟨hca, hsc⟩, rfl⟩]
    | true =>
        rw [if_neg (fun hcon => by simpa using hcon.2), if_pos ⟨hca, hsc⟩]
  · intro hca0
    unfold renderPixel
    rw [if_pos ⟨hov, hin⟩]
    have e1 : (if (1 < scr.overlay_mode ∧ scr.overlay_mode ≤ 4) ∧
        0 < scr.lens.cc_map (i - scr.lens.origin1) (j - scr.lens.origin0) then
        scr.lens.cc_map (i - scr.lens.origin1) (j - scr.lens.origin0) else 0)
        = scr.lens.cc_map (i - scr.lens.origin1) (j - scr.lens.origin0) := by
      by_cases h0 : 0 < scr.lens.cc_map (i - scr.lens.origin1) (j - scr.lens.origin0)
      · rw [if_pos ⟨hsc, h0⟩]
      · rw [if_neg (fun hcon => h0 hcon.2)]
        omega
    have e2 : (if scr.overlay_mode = 1 ∨ scr.overlay_mode = 4 then
        scr.lens.kappa8u (i - scr.lens.origin1) (j - scr.lens.origin0) else 0)
        = (if scr.overlay_mode = 4 then
        scr.lens.kappa8u (i - scr.lens.origin1) (j - scr.lens.origin0) else 0) := by
      by_cases h4 : scr.overlay_mode = 4
      · rw [if_pos (Or.inr h4), if_pos h4]
      · rw [if_neg (by omega), if_neg h4]
    by_cases hwhite : scr.lens.cc_map (i - scr.lens.origin1) (j - scr.lens.origin0) = 255 ∧
        recompute_lensed = false
    · rw [if_pos ⟨hsc, hwhite.1 ▸ (by norm_num : (0 : ℕ) < 255), hwhite.1, hwhite.2⟩]
      rw [hwhite.1]
      simp only [addClamp, Prod.mk.injEq]
      refine ⟨?_, ?_, ?_⟩ <;> omega
    · rw [if_neg (fun hcon => hwhite ⟨hcon.2.2.1, hcon.2.2.2⟩),
        if_neg (fun hcon => by rw [hca0] at hcon; exact absurd hcon.1.1 (by norm_num)),
        if_neg (fun hcon => by rw [hca0] at hcon; exact absurd hcon.1 (by norm_num)),
        e1, e2]

/-- The lens of the concrete claim C4 screen: every cell on a critical
curve (value 255) and on a caustic (value 255), zero deflection. -/
noncomputable def lensC4 : lensT :=
  { origin0 := 0, origin1 := 0, end_points0 := 4, end_points1 := 4,
    w := 4, h := 4,
    alpha1 := fun _ _ => 0, alpha2 := fun _ _ => 0,
    kappa8u := fun _ _ => 0, cc_map := fun _ _ => 255, caustic_map := fun _ _ => 255,
    weight := 1 }

/-- The source of the concrete claim C4 screen. -/
def sourceC4 : sourceT :=
  { origin0 := 0, origin1 := 0, pos0 := 2, pos1 := 2,
    end_points0 := 4, end_points1 := 4, w := 4, h := 4,
    imageW := 4, imageH := 4, channels := fun _ _ _ => 7 }

/-- A concrete screen in overlay mode 2 whose pixel `(1,1)` is both on the
critical curve (value 255) and on a caustic. -/
noncomputable def scrC4 : screenT :=
  { lens := lensC4, src := sourceC4, lensedRGB := fun _ _ => (0, 0, 0),
    overlay_mode := 2, max_w := 4, max_h := 4 }

/-- Counterexample for claim C4 as stated: at pixel `(1,1)` of `scrC4` in
overlay-only mode the caustic map is positive, the critical-curve layer is
active and the pixel is inside the lens footprint, yet the final pixel is
pure white `(255,255,255)` — the critical-curve short-circuit wins — not
the pure red `(0,0,255)` the claim requires for every caustic pixel. -/
theorem c4_compositing_counterexample :
    (2 ≤ scrC4.overlay_mode ∧ scrC4.overlay_mode ≤ 4) ∧
    scrC4.lens.contains 1 1 ∧
    0 < scrC4.lens.caustic_map (1 - scrC4.lens.origin1) (1 - scrC4.lens.origin0) ∧
    (renderPixel scrC4 false 1 1).2 = (255, 255, 255) ∧
    (renderPixel scrC4 false 1 1).2 ≠ (0, 0, 255) := by
  have hcont : scrC4.lens.contains 1 1 := by
    unfold lensT.contains
    norm_num [scrC4, lensC4]
  have hfin : (renderPixel scrC4 false 1 1).2 = (255, 255, 255) := by
    unfold renderPixel
    rw [if_pos ⟨by norm_num [scrC4], hcont⟩,
      if_pos ⟨⟨by norm_num [scrC4], by norm_num [scrC4]⟩,
        by norm_num [scrC4, lensC4], by norm_num [scrC4, lensC4], rfl⟩]
  refine ⟨⟨by norm_num [scrC4], by norm_num [scrC4]⟩, hcont,
    by norm_num [scrC4, lensC4], hfin, ?_⟩
  rw [hfin]
  decide

/-- Witness for the amended claim C4 at the concrete screen `scrC4`. -/
theorem c4_compositing_witness :
    (2 ≤ scrC4.overlay_mode ∧ scrC4.overlay_mode ≤ 4) ∧
    scrC4.lens.contains 1 1 ∧ C4Prop scrC4 false 1 1 :=
  ⟨⟨by norm_num [scrC4], by norm_num [scrC4]⟩,
   by unfold lensT.contains; norm_num [scrC4, lensC4],
   c4_compositing scrC4 false 1 1 (by norm_num [scrC4]) (by norm_num [scrC4])
     (by unfold lensT.contains; norm_num [scrC4, lensC4])⟩

/-- A double matrix (`CV_64FC1`) with its dimensions, entries indexed
(row, column) like `Mat::at`. -/
structure MatD where
  rows : ℤ
  cols : ℤ
  entry : ℤ → ℤ → ℝ

/-- The four image translation directions (`math.cpp`). -/
inductive Direction where
  | ShiftUp
  | ShiftRight
  | ShiftDown
  | ShiftLeft

/-- `translateImg` (`math.cpp`): shift the image by `N` pixels in the given
direction; vacated cells are zero (the destination starts as `Mat::zeros`
and only the copied sub-rectangle is overwritten). -/
noncomputable def translateImg (f : MatD) (N : ℤ) (direction : Direction) : MatD :=
  { rows := f.rows, cols := f.cols,
    entry := fun i j =>
      match direction with
      | .ShiftUp =>
          if 0 ≤ i ∧ i < f.rows - N ∧ 0 ≤ j ∧ j < f.cols then f.entry (i + N) j else 0
      | .ShiftLeft =>
          if 0 ≤ i ∧ i < f.rows ∧ N ≤ j ∧ j < f.cols then f.entry i (j - N) else 0
      | .ShiftDown =>
          if N ≤ i ∧ i < f.rows ∧ 0 ≤ j ∧ j < f.cols then f.entry (i - N) j else 0
      | .ShiftRight =>
          if 0 ≤ i ∧ i < f.rows ∧ 0 ≤ j ∧ j < f.cols - N then f.entry i (j + N) else 0 }

/-- `deriv_x` (`math.cpp`): central difference `(shift(+1) - shift(-1))/2`
in x, then each row's two boundary columns on either edge are overwritten
with the derivative at column 2 respectively `cols - 3`; the writes at
`cols-1` and `cols-2` happen last, so they take priority. -/
noncomputable def deriv_x (input : MatD) : MatD :=
  { rows := input.rows, cols := input.cols,
    entry := fun i j =>
      if j = input.cols - 1 ∨ j = input.cols - 2 then
        ((translateImg input 1 .ShiftRight).entry i (input.cols - 3)
          - (translateImg input 1 .ShiftLeft).entry i (input.cols - 3)) / 2
      else if j = 0 ∨ j = 1 then
        ((translateImg input 1 .ShiftRight).entry i 2
          - (translateImg input 1 .ShiftLeft).entry i 2) / 2
      else
        ((translateImg input 1 .ShiftRight).entry i j
          - (translateImg input 1 .ShiftLeft).entry i j) / 2 }

/-- `deriv_y` (`math.cpp`): central difference `(shift(+1) - shift(-1))/2`
in y, with the two boundary rows on either edge overwritten analogously. -/
noncomputable def deriv_y (input : MatD) : MatD :=
  { rows := input.rows, cols := input.cols,
    entry := fun i j =>
      if i = input.rows - 1 ∨ i = input.rows - 2 then
        ((translateImg input 1 .ShiftUp).entry (input.rows - 3) j
          - (translateImg input 1 .ShiftDown).entry (input.rows - 3) j) / 2
      else if i = 0 ∨ i = 1 then
        ((translateImg input 1 .ShiftUp).entry 2 j
          - (translateImg input 1 .ShiftDown).entry 2 j) / 2
      else
        ((translateImg input 1 .ShiftUp).entry i j
          - (translateImg input 1 .ShiftDown).entry i j) / 2 }

/-- Full statement of claim C7 for a given input grid. -/
noncomputable def C7Prop (f : MatD) : Prop :=
  ((deriv_x f).rows = f.rows ∧ (deriv_x f).cols = f.cols ∧
    ∀ i : ℤ, 0 ≤ i → i < f.rows →
      (∀ j : ℤ, 2 ≤ j → j ≤ f.cols - 3 →
          (deriv_x f).entry i j = (f.entry i (j + 1) - f.entry i (j - 1)) / 2) ∧
      (deriv_x f).entry i 0 = (f.entry i 3 - f.entry i 1) / 2 ∧
      (deriv_x f).entry i 1 = (f.entry i 3 - f.entry i 1) / 2 ∧
      (deriv_x f).entry i (f.cols - 2)
        = (f.entry i (f.cols - 2) - f.entry i (f.cols - 4)) / 2 ∧
      (deriv_x f).entry i (f.cols - 1)
        = (f.entry i (f.cols - 2) - f.entry i (f.cols - 4)) / 2) ∧
  ((deriv_y f).rows = f.rows ∧ (deriv_y f).cols = f.cols ∧
    ∀ j : ℤ, 0 ≤ j → j < f.cols →
      (∀ i : ℤ, 2 ≤ i → i ≤ f.rows - 3 →
          (deriv_y f).entry i j = (f.entry (i + 1) j - f.entry (i - 1) j) / 2) ∧
      (deriv_y f).entry 0 j = (f.entry 3 j - f.entry 1 j) / 2 ∧
      (deriv_y f).entry 1 j = (f.entry 3 j - f.entry 1 j) / 2 ∧
      (deriv_y f).entry (f.rows - 2) j
        = (f.entry (f.rows - 2) j - f.entry (f.rows - 4) j) / 2 ∧
      (deriv_y f).entry (f.rows - 1) j
        = (f.entry (f.rows - 2) j - f.entry (f.rows - 4) j) / 2)

/-- Claim C7: on grids with at least 5 columns (rows), `deriv_x` (`deriv_y`)
equals the central difference at every interior cell, and the two boundary
columns (rows) on each edge hold the nearest interior derivative — the
central difference at index 2 from the low edge and at `length - 3` from the
high edge — so every output cell is a true central difference of input
values, with no zero-padding artifact. -/
theorem c7_derivatives (f : MatD) (hx : 5 ≤ f.cols) (hy : 5 ≤ f.rows) : C7Prop f := by
  have e3x : f.cols - 3 + 1 = f.cols - 2 := by ring
  have e4x : f.cols - 3 - 1 = f.cols - 4 := by ring
  have e3y : f.rows - 3 + 1 = f.rows - 2 := by ring
  have e4y : f.rows - 3 - 1 = f.rows - 4 := by ring
  constructor
  · refine ⟨rfl, rfl, fun i hi0 hi1 => ⟨?_, ?_, ?_, ?_, ?_⟩⟩
    · intro j hj0 hj1
      simp only [deriv_x, translateImg]
      split_ifs <;> first | rfl | omega | (norm_num; done) | tauto
    · simp only [deriv_x, translateImg]
      split_ifs <;> first | rfl | omega | (norm_num; done) | tauto
    · simp only [deriv_x, translateImg]
      split_ifs <;> first | rfl | omega | (norm_num; done) | tauto
    · simp only [deriv_x, translateImg, e3x, e4x]
      split_ifs <;> first | rfl | omega | (norm_num; done) | tauto
    · simp only [deriv_x, translateImg, e3x, e4x]
      split_ifs <;> first | rfl | omega | (norm_num; done) | tauto
  · refine ⟨rfl, rfl, fun j hj0 hj1 => ⟨?_, ?_, ?_, ?_, ?_⟩⟩
    · intro i hi0 hi1
      simp only [deriv_y, translateImg]
      split_ifs <;> first | rfl | omega | (norm_num; done) | tauto
    · simp only [deriv_y, translateImg]
      split_ifs <;> first | rfl | omega | (norm_num; done) | tauto
    · simp only [deriv_y, translateImg]
      split_ifs <;> first | rfl | omega | (norm_num; done) | tauto
    · simp only [deriv_y, translateImg, e3y, e4y]
      split_ifs <;> first | rfl | omega | (norm_num; done) | tauto
    · simp only [deriv_y, translateImg, e3y, e4y]
      split_ifs <;> first | rfl | omega | (norm_num; done) | tauto

/-- A concrete 5x5 grid used to witness claim C7. -/
noncomputable def matC7 : MatD :=
  { rows := 5, cols := 5, entry := fun i j => ((i * 10 + j : ℤ) : ℝ) }

/-- Witness for claim C7 at a concrete 5x5 grid. -/
theorem c7_derivatives_witness :
    (5 : ℤ) ≤ matC7.cols ∧ (5 : ℤ) ≤ matC7.rows ∧ C7Prop matC7 :=
  ⟨by norm_num [matC7], by norm_num [matC7],
   c7_derivatives matC7 (by norm_num [matC7]) (by norm_num [matC7])⟩

/-- Pointwise write into a double grid, modelling `Mat::at<double>(r, c) = v`. -/
def gridUpdate (g : ℕ → ℕ → ℝ) (r c : ℕ) (v : ℝ) : ℕ → ℕ → ℝ :=
  fun r2 c2 => if r2 = r ∧ c2 = c then v else g r2 c2

/-- The value the loop body of `fill_green_fct` (`math.cpp`) computes for
quadrant offset `(i, j)`: the regularizing constant at the origin
(`G(theta = 0.01)`, a lower cut for the log), otherwise
`(1/pi) * log(sqrt(i*i + j*j))`. -/
noncomputable def greenVal (i j : ℕ) : ℝ :=
  if i = 0 ∧ j = 0 then -1.4658711977588554
  else (1 / Real.pi) * Real.log (Real.sqrt ((i * i + j * j : ℕ) : ℝ))

/-- The first half of one iteration of the double loop in `fill_green_fct`
(`math.cpp`): write the value for offset `(i, j)` at `(i, j)` and, when
`i` is not 0, mirror it at `(Y-i, j)` and (when `j` is also not 0) at
`(Y-i, X-j)`. -/
noncomputable def greenStepA (X Y i j : ℕ) (g : ℕ → ℕ → ℝ) : ℕ → ℕ → ℝ :=
  if i ≠ 0 then
    if j ≠ 0 then
      gridUpdate (gridUpdate (gridUpdate g i j (greenVal i j)) (Y - i) j (greenVal i j))
        (Y - i) (X - j) (greenVal i j)
    else gridUpdate (gridUpdate g i j (greenVal i j)) (Y - i) j (greenVal i j)
  else gridUpdate g i j (greenVal i j)

/-- One full iteration of the double loop in `fill_green_fct` (`math.cpp`):
the writes of `greenStepA` followed by the mirror at `(i, X-j)` when `j` is
not 0. -/
noncomputable def greenStep (X Y i j : ℕ) (g : ℕ → ℕ → ℝ) : ℕ → ℕ → ℝ :=
  if j ≠ 0 then gridUpdate (greenStepA X Y i j g) i (X - j) (greenVal i j)
  else greenStepA X Y i j g

/-- `fill_green_fct` (`math.cpp`): starting from the zero grid, run the
double loop over the first quadrant `i ≤ Y/2`, `j ≤ X/2` in order. -/
noncomputable def fill_green_fct (X Y : ℕ) : ℕ → ℕ → ℝ :=
  (List.range (Y / 2 + 1)).foldl
    (fun g i => (List.range (X / 2 + 1)).foldl (fun g2 j => greenStep X Y i j g2) g)
    (fun _ _ => 0)

/-- The closed form of the filled kernel: the cell `(r, c)` holds the value
for the quadrant offset `(min r (Y-r), min c (X-c))`. -/
noncomputable def greenClosed (X Y r c : ℕ) : ℝ :=
  greenVal (min r (Y - r)) (min c (X - c))

/-- The set of cells one loop iteration writes. -/
def greenHit (X Y i j p q : ℕ) : Prop :=
  (p = i ∧ q = j) ∨ (i ≠ 0 ∧ p = Y - i ∧ q = j) ∨
  (i ≠ 0 ∧ j ≠ 0 ∧ p = Y - i ∧ q = X - j) ∨ (j ≠ 0 ∧ p = i ∧ q = X - j)

instance (X Y i j p q : ℕ) : Decidable (greenHit X Y i j p q) := by
  unfold greenHit
  infer_instance

set_option maxHeartbeats 2000000 in
lemma greenStep_eval (X Y i j : ℕ) (g : ℕ → ℕ → ℝ) (p q : ℕ) :
    greenStep X Y i j g p q =
      if greenHit X Y i j p q then greenVal i j else g p q := by
  simp only [greenStep, greenStepA, greenHit]
  split_ifs <;>
    first
      | tauto
      | (simp only [gridUpdate]
         split_ifs <;> tauto)

lemma greenHit_closed (X Y i j p q : ℕ) (hi : i ≤ Y / 2) (hj : j ≤ X / 2)
    (hp : p < Y) (hq : q < X) (h : greenHit X Y i j p q) :
    greenClosed X Y p q = greenVal i j := by
  unfold greenClosed
  rcases h with ⟨h1, h2⟩ | ⟨hi0, h1, h2⟩ | ⟨hi0, hj0, h1, h2⟩ | ⟨hj0, h1, h2⟩
  · rw [h1, h2, show min i (Y - i) = i by omega, show min j (X - j) = j by omega]
  · rw [h1, h2, show min (Y - i) (Y - (Y - i)) = i by omega,
      show min j (X - j) = j by omega]
  · rw [h1, h2, show min (Y - i) (Y - (Y - i)) = i by omega,
      show min (X - j) (X - (X - j)) = j by omega]
  · rw [h1, h2, show min i (Y - i) = i by omega,
      show min (X - j) (X - (X - j)) = j by omega]

lemma greenStep_preserves (X Y i j p q : ℕ) (hi : i ≤ Y / 2) (hj : j ≤ X / 2)
    (hp : p < Y) (hq : q < X) (g : ℕ → ℕ → ℝ) (hg : g p q = greenClosed X Y p q) :
    greenStep X Y i j g p q = greenClosed X Y p q := by
  rw [greenStep_eval]
  split_ifs with h
  · exact (greenHit_closed X Y i j p q hi hj hp hq h).symm
  · exact hg

lemma greenStep_establishes (X Y p q : ℕ) (hY : 1 ≤ Y) (hX : 1 ≤ X)
    (hp : p < Y) (hq : q < X) (g : ℕ → ℕ → ℝ) :
    greenStep X Y (min p (Y - p)) (min q (X - q)) g p q = greenClosed X Y p q := by
  have hhit : greenHit X Y (min p (Y - p)) (min q (X - q)) p q := by
    unfold greenHit
    by_cases h1 : p ≤ Y / 2 <;> by_cases h2 : q ≤ X / 2
    · exact Or.inl ⟨by omega, by omega⟩
    · exact Or.inr (Or.inr (Or.inr ⟨by omega, by omega, by omega⟩))
    · exact Or.inr (Or.inl ⟨by omega, by omega, by omega⟩)
    · exact Or.inr (Or.inr (Or.inl ⟨by omega, by omega, by omega, by omega⟩))
  rw [greenStep_eval, if_pos hhit]
  exact (greenHit_closed X Y _ _ p q (by omega) (by omega) hp hq hhit).symm

lemma foldl_pres {α β : Type} (f : β → α → β) (P : β → Prop) (l : List α)
    (h : ∀ a ∈ l, ∀ b, P b → P (f b a)) (b : β) (hb : P b) : P (l.foldl f b) := by
  induction l generalizing b with
  | nil => exact hb
  | cons a t ih =>
      exact ih (fun x hx => h x (List.mem_cons_of_mem a hx)) (f b a)
        (h a (List.mem_cons_self a t) b hb)

lemma foldl_est {α β : Type} (f : β → α → β) (P : β → Prop) (l : List α) (a0 : α)
    (ha0 : a0 ∈ l) (hest : ∀ b, P (f b a0))
    (h : ∀ a ∈ l, ∀ b, P b → P (f b a)) (b : β) : P (l.foldl f b) := by
  obtain ⟨s, t, rfl⟩ := List.append_of_mem ha0
  rw [List.foldl_append, List.foldl_cons]
  apply foldl_pres f P t
  · intro x hx b2 hb2
    exact h x (List.mem_append_right _ (List.mem_cons_of_mem _ hx)) b2 hb2
  · exact hest _

lemma fill_green_fct_eq_closed (X Y : ℕ) (hX : 1 ≤ X) (hY : 1 ≤ Y)
    (r c : ℕ) (hr : r < Y) (hc : c < X) :
    fill_green_fct X Y r c = greenClosed X Y r c := by
  unfold fill_green_fct
  refine foldl_est
    (fun g i => (List.range (X / 2 + 1)).foldl (fun g2 j => greenStep X Y i j g2) g)
    (fun g => g r c = greenClosed X Y r c) (List.range (Y / 2 + 1)) (min r (Y - r))
    (List.mem_range.mpr (by omega)) ?_ ?_ _
  · intro b
    refine foldl_est (fun g2 j => greenStep X Y (min r (Y - r)) j g2)
      (fun g => g r c = greenClosed X Y r c) (List.range (X / 2 + 1)) (min c (X - c))
      (List.mem_range.mpr (by omega)) ?_ ?_ b
    · intro b2
      exact greenStep_establishes X Y r c hY hX hr hc b2
    · intro j hj b2 hb2
      exact greenStep_preserves X Y _ j r c (by omega)
        (Nat.lt_succ_iff.mp (List.mem_range.mp hj)) hr hc b2 hb2
  · intro i hi b hb
    refine foldl_pres (fun g2 j => greenStep X Y i j g2)
      (fun g => g r c = greenClosed X Y r c) (List.range (X / 2 + 1)) ?_ b hb
    intro j hj b2 hb2
    exact greenStep_preserves X Y i j r c (Nat.lt_succ_iff.mp (List.mem_range.mp hi))
      (Nat.lt_succ_iff.mp (List.mem_range.mp hj)) hr hc b2 hb2

/-- Full statement of claim C8 for a kernel of width `X` and height `Y`. -/
noncomputable def C8Prop (X Y : ℕ) : Prop :=
  (∀ r, r < Y → ∀ c, c < X →
      fill_green_fct X Y r c = greenVal (min r (Y - r)) (min c (X - c))) ∧
  (∀ r, r < Y → ∀ c, c < X →
      fill_green_fct X Y r c = fill_green_fct X Y ((Y - r) % Y) ((X - c) % X)) ∧
  (∀ r, r < Y → ∀ c, c < X → ¬ (min r (Y - r) = 0 ∧ min c (X - c) = 0) →
      fill_green_fct X Y r c =
        (1 / Real.pi) * Real.log (Real.sqrt
          (((min r (Y - r) : ℕ) : ℝ) ^ 2 + ((min c (X - c) : ℕ) : ℝ) ^ 2))) ∧
  fill_green_fct X Y 0 0 = -1.4658711977588554

/-- Claim C8: the filled kernel is symmetric under the 180-degree rotation
`(r, c) ↦ ((Y-r) mod Y, (X-c) mod X)`; every cell holds the value for its
quadrant offset `(min r (Y-r), min c (X-c))` — `log(sqrt(i^2+j^2))/pi` at
non-zero offsets and the fixed regularizing constant at offset `(0,0)`. -/
theorem c8_green_kernel (X Y : ℕ) (hX : 1 ≤ X) (hY : 1 ≤ Y) : C8Prop X Y := by
  have key : ∀ r, r < Y → ∀ c, c < X → fill_green_fct X Y r c = greenClosed X Y r c :=
    fun r hr c hc => fill_green_fct_eq_closed X Y hX hY r c hr hc
  refine ⟨?_, ?_, ?_, ?_⟩
  · intro r hr c hc
    rw [key r hr c hc]
    rfl
  · intro r hr c hc
    have hr2 : (Y - r) % Y < Y := Nat.mod_lt _ (by omega)
    have hc2 : (X - c) % X < X := Nat.mod_lt _ (by omega)
    rw [key r hr c hc, key _ hr2 _ hc2]
    unfold greenClosed
    have e1 : min ((Y - r) % Y) (Y - (Y - r) % Y) = min r (Y - r) := by
      rcases Nat.eq_zero_or_pos r with h0 | h0
      · subst h0
        simp [Nat.mod_self]
      · have hm : (Y - r) % Y = Y - r := Nat.mod_eq_of_lt (by omega)
        rw [hm]
        omega
    have e2 : min ((X - c) % X) (X - (X - c) % X) = min c (X - c) := by
      rcases Nat.eq_zero_or_pos c with h0 | h0
      · subst h0
        simp [Nat.mod_self]
      · have hm : (X - c) % X = X - c := Nat.mod_eq_of_lt (by omega)
        rw [hm]
        omega
    rw [e1, e2]
  · intro r hr c hc hne
    rw [key r hr c hc]
    unfold greenClosed greenVal
    rw [if_neg hne]
    congr 1
    congr 1
    push_cast
    ring_nf
  · rw [key 0 (by omega) 0 (by omega)]
    unfold greenClosed greenVal
    rw [show min 0 (Y - 0) = 0 by omega, show min 0 (X - 0) = 0 by omega,
      if_pos ⟨rfl, rfl⟩]

/-- Witness for claim C8 at a 3x3 kernel. -/
theorem c8_green_kernel_witness : (1 : ℕ) ≤ 3 ∧ C8Prop 3 3 :=
  ⟨by norm_num, c8_green_kernel 3 3 (by norm_num) (by norm_num)⟩

